/-
Verification of the Momentum State Engine (src/App.tsx).

The source is a single-file React application.  We shallowly embed the
engine parts the specification talks about:

* the entity model (ActivityEntry, Habit, MiniGoal, IfThenPlan, WOOPPlan,
  AnalyticsData) as Lean structures;
* the React `useState` repositories as one record `EngineState`;
* the handlers `addEntry`, `deleteEntry`, `toggleHabit`, `checkReset`,
  `exportData`, `importData` as pure state transformers;
* the derived metrics `calculateStreak`, `activityMap`, `avgActionsPerDay`
  and the 30-day heatmap colour chain as pure functions.

Conventions of the embedding:

* JavaScript epoch-millisecond timestamps are `Int`; a calendar day
  (`Date.toDateString()` in the source) is the floor of the timestamp by
  86 400 000 ms, so "yesterday" (`Date.now() - 86400000` in the source) is
  day − 1.  Local-timezone and DST irregularities of `toDateString` are
  outside the model.
* JavaScript objects used as string-keyed records (`habitHistory`,
  `futureCostNotes`, the activity map) are association lists with unique
  keys in insertion order.
* JavaScript truthiness, which `importData` tests with `if (data.k)`, is
  explicit per type: a string is truthy iff nonempty, a number is truthy
  iff nonzero, and arrays and objects are always truthy (even `[]` / `{}`).
* `JSON.parse` of the import file is modelled abstractly by an
  `Option ImportDoc` argument: `none` is the unparseable case in which the
  source's `catch` block runs (alert only, no state setter was reached).
* The `while` loop of `calculateStreak` is embedded with explicit fuel
  `dates.length + 1`; each successful iteration consumes a distinct member
  of `dates`, so the loop performs at most `dates.length` successful
  iterations and this fuel is never exhausted before the test fails.
-/
import Mathlib

set_option linter.unusedVariables false

/-! ### Entity model (src/App.tsx lines 53-104) -/

structure ActivityEntry where
  id : String
  text : String
  timestamp : Int
deriving DecidableEq

structure Habit where
  id : String
  label : String
  completed : Bool
deriving DecidableEq

structure MiniGoal where
  id : String
  text : String
  deadline : String
  completed : Bool
deriving DecidableEq

structure IfThenPlan where
  id : String
  trigger : String
  action : String
deriving DecidableEq

structure WOOPPlan where
  wish : String
  outcome : String
  obstacle : String
  plan : String
deriving DecidableEq

structure AnalyticsData where
  timerSessions : Nat
  habitsCompleted : Nat
  goalsCreated : Nat
  ifThenCreated : Nat
deriving DecidableEq

/-! ### Engine state: the `useState` repositories of `App` (lines 231-304) -/

structure EngineState where
  entries : List ActivityEntry
  habits : List Habit
  vision : String
  miniGoals : List MiniGoal
  ifThenPlans : List IfThenPlan
  woop : WOOPPlan
  points : Int
  activeTheme : String
  habitHistory : List (String × List String)
  futureCostNotes : List (String × String)
  analytics : AnalyticsData
deriving DecidableEq

/-- The default habits seeded when `momentum_habits` is absent (lines 238-243). -/
def initialHabits : List Habit :=
  [ { id := "1", label := "Wake up 30m earlier", completed := false },
    { id := "2", label := "Read 10 pages", completed := false },
    { id := "3", label := "Meditate 5 minutes", completed := false },
    { id := "4", label := "Gratitude journal", completed := false } ]

/-- The state of a cleared engine: every `useState` initializer's fallback
value when its storage slot is absent (lines 231-304).  `activeTheme` falls
back to `THEMES[0].color = '#00FF41'` (line 271). -/
def initialState : EngineState :=
  { entries := []
    habits := initialHabits
    vision := ""
    miniGoals := []
    ifThenPlans := []
    woop := { wish := "", outcome := "", obstacle := "", plan := "" }
    points := 0
    activeTheme := "#00FF41"
    habitHistory := []
    futureCostNotes := []
    analytics := { timerSessions := 0, habitsCompleted := 0,
                   goalsCreated := 0, ifThenCreated := 0 } }

/-! ### Calendar days -/

/-- One day in epoch milliseconds (the literal `86400000` of lines 213, 218). -/
def msPerDay : Int := 86400000

/-- The calendar day of an epoch-millisecond timestamp: the embedding of
`new Date(ts).toDateString()`, with days numbered by flooring. -/
def dayOf (ts : Int) : Int := Int.fdiv ts msPerDay

/-! ### Daily rollover (lines 433-447) -/

/-- The state read and written by `checkReset`: the habit repository plus the
persisted `momentum_last_reset` marker (`none` when the slot is absent). -/
structure RolloverState where
  habits : List Habit
  lastReset : Option String
deriving DecidableEq

/-- `checkReset` (lines 434-442): if the persisted last-reset marker differs
from today's day string, clear every habit's `completed` flag and persist
today as the new marker; otherwise do nothing. -/
def checkReset (today : String) (s : RolloverState) : RolloverState :=
  if s.lastReset ≠ some today then
    { habits := s.habits.map (fun h => { h with completed := false })
      lastReset := some today }
  else s

/-! ### 30-day heatmap bucketing (lines 792-800) -/

/-- The colour-class chain of the heatmap cell (lines 792-800): `bgColor`
starts as `bg-engine-border`, then `count > 0 && count <= 2` gives `/30`,
else `count > 2 && count <= 5` gives `/60`, else `count > 5` gives the full
accent. -/
def heatColor (count : Nat) : String :=
  if count > 0 ∧ count ≤ 2 then "bg-engine-accent/30"
  else if count > 2 ∧ count ≤ 5 then "bg-engine-accent/60"
  else if count > 5 then "bg-engine-accent"
  else "bg-engine-border"

/-- The four visual-intensity tiers named by the specification (§4.3). -/
inductive HeatTier where
  | none
  | low
  | medium
  | high
deriving DecidableEq

/-- Modelled from the spec's words (§4.3): "0 → none, 1–2 → low,
3–5 → medium, 6+ → high".  Spec-side definition, to be compared with the
source-side `heatColor`. -/
def specHeatTier (count : Nat) : HeatTier :=
  if count = 0 then HeatTier.none
  else if count ≤ 2 then HeatTier.low
  else if count ≤ 5 then HeatTier.medium
  else HeatTier.high

/-- The colour class each tier renders as (the legend of lines 766-783). -/
def tierColor : HeatTier → String
  | HeatTier.none => "bg-engine-border"
  | HeatTier.low => "bg-engine-accent/30"
  | HeatTier.medium => "bg-engine-accent/60"
  | HeatTier.high => "bg-engine-accent"

/-! ### Export / import (lines 589-636) -/

/-- The backup document: the top-level keys `importData` recognizes
(lines 618-628) plus the generation `timestamp` written by `exportData`
(line 599).  A field is `none` when its key is absent from the document. -/
structure ImportDoc where
  entries : Option (List ActivityEntry) := none
  habits : Option (List Habit) := none
  vision : Option String := none
  miniGoals : Option (List MiniGoal) := none
  ifThenPlans : Option (List IfThenPlan) := none
  woop : Option WOOPPlan := none
  points : Option Int := none
  activeTheme : Option String := none
  habitHistory : Option (List (String × List String)) := none
  futureCostNotes : Option (List (String × String)) := none
  analytics : Option AnalyticsData := none
  timestamp : Option String := none
deriving DecidableEq

/-- `exportData` (lines 589-600): the document serialized to the backup
file.  It contains `entries`, `habits`, `vision`, `miniGoals`,
`ifThenPlans`, `woop`, `points`, `activeTheme` and a generation timestamp —
and nothing else: `habitHistory`, `futureCostNotes` and `analytics` are not
written. -/
def exportData (σ : EngineState) (nowISO : String) : ImportDoc :=
  { entries := some σ.entries
    habits := some σ.habits
    vision := some σ.vision
    miniGoals := some σ.miniGoals
    ifThenPlans := some σ.ifThenPlans
    woop := some σ.woop
    points := some σ.points
    activeTheme := some σ.activeTheme
    timestamp := some nowISO }

/-- The field-application stage of `importData` (lines 618-628): for each
recognized key, `if (data.k) setK(data.k)` — the setter runs only when the
value is truthy.  Arrays and objects are always truthy (even empty ones);
a string is truthy iff nonempty; a number is truthy iff nonzero.  The
document's `timestamp` key is never read back. -/
def applyImport (σ : EngineState) (d : ImportDoc) : EngineState :=
  { entries := match d.entries with
      | some v => v
      | none => σ.entries
    habits := match d.habits with
      | some v => v
      | none => σ.habits
    vision := match d.vision with
      | some v => if v ≠ "" then v else σ.vision
      | none => σ.vision
    miniGoals := match d.miniGoals with
      | some v => v
      | none => σ.miniGoals
    ifThenPlans := match d.ifThenPlans with
      | some v => v
      | none => σ.ifThenPlans
    woop := match d.woop with
      | some v => v
      | none => σ.woop
    points := match d.points with
      | some v => if v ≠ 0 then v else σ.points
      | none => σ.points
    activeTheme := match d.activeTheme with
      | some v => if v ≠ "" then v else σ.activeTheme
      | none => σ.activeTheme
    habitHistory := match d.habitHistory with
      | some v => v
      | none => σ.habitHistory
    futureCostNotes := match d.futureCostNotes with
      | some v => v
      | none => σ.futureCostNotes
    analytics := match d.analytics with
      | some v => v
      | none => σ.analytics }

/-- Outcome signalled to the user by `importData`: the success alert of
line 630 or the `Invalid backup file` alert of the `catch` block. -/
inductive ImportOutcome where
  | success
  | formatError
deriving DecidableEq

/-- `importData` (lines 610-636).  `parsed` is the outcome of
`JSON.parse` on the file's text: `none` when parsing throws.  Parsing
happens before any field is applied, so on `none` the state is returned
untouched and the format-error alert fires. -/
def importData (σ : EngineState) (parsed : Option ImportDoc) :
    EngineState × ImportOutcome :=
  match parsed with
  | some d => (applyImport σ d, ImportOutcome.success)
  | none => (σ, ImportOutcome.formatError)

/-! ### Activity Log handlers (lines 495-507, 532-534) -/

/-- The entry built by `addEntry` (lines 499-503): id and timestamp both
come from `Date.now()`, the text is trimmed. -/
def mkEntry (now : Int) (text : String) : ActivityEntry :=
  { id := toString now, text := text.trim, timestamp := now }

/-- An Activity Log operation: `addEntry` with the form's text at a given
`Date.now()`, or `deleteEntry` with an id. -/
inductive LogOp where
  | add (now : Int) (text : String)
  | del (id : String)
deriving DecidableEq

/-- One Activity Log step.  `addEntry` (lines 495-507) returns without
touching the list when the text trims to empty, else prepends the new
entry; `deleteEntry` (lines 532-534) filters out the entries whose id
matches. -/
def applyOp (l : List ActivityEntry) : LogOp → List ActivityEntry
  | LogOp.add now text =>
      if text.trim = "" then l else mkEntry now text :: l
  | LogOp.del i => l.filter (fun e => e.id ≠ i)

/-- A sequence of Activity Log operations applied in order. -/
def runOps (l : List ActivityEntry) (ops : List LogOp) : List ActivityEntry :=
  ops.foldl applyOp l

/-- Whether an operation is an append that passes the trim guard. -/
def isGoodAdd : LogOp → Bool
  | LogOp.add _ text => text.trim ≠ ""
  | LogOp.del _ => false

/-- The number of successful appends in a sequence (the trim guard is
independent of the log's state). -/
def countAdds (ops : List LogOp) : Nat := (ops.filter isGoodAdd).length

/-- Whether an operation removes a present entry from log `l`. -/
def isHit (l : List ActivityEntry) : LogOp → Bool
  | LogOp.del i => l.any (fun e => e.id = i)
  | LogOp.add _ _ => false

/-- The number of removals of present ids along a run. -/
def countHits : List ActivityEntry → List LogOp → Nat
  | _, [] => 0
  | l, op :: ops =>
      (if isHit l op then 1 else 0) + countHits (applyOp l op) ops

/-- The ids minted by the appends of a sequence (`Date.now().toString()`). -/
def addIds : List LogOp → List String
  | [] => []
  | LogOp.add now _ :: ops => toString now :: addIds ops
  | LogOp.del _ :: ops => addIds ops

/-! ### Habit toggling (lines 509-530) -/

/-- Lookup of a day's list in the habit-history record, `prevH[today] || []`
(line 521). -/
def hhGet (m : List (String × List String)) (day : String) : List String :=
  match m with
  | [] => []
  | (k, v) :: rest => if k = day then v else hhGet rest day

/-- The object-spread update `{ ...prevH, [today]: v }` (line 523) on a
unique-key record: replace the day's binding in place, or append it. -/
def hhSet (m : List (String × List String)) (day : String)
    (v : List String) : List (String × List String) :=
  match m with
  | [] => [(day, v)]
  | (k, w) :: rest =>
      if k = day then (day, v) :: rest else (k, w) :: hhSet rest day v

/-- The per-habit update of `toggleHabit`'s map (lines 511-513): flip
`completed` on the habit whose id matches, keep the others. -/
def flipHabit (i : String) (h : Habit) : Habit :=
  if h.id = i then { h with completed := !h.completed } else h

/-- `toggleHabit` (lines 509-530): flip the matching habit's `completed`;
if the habit is now completed, increment `analytics.habitsCompleted` and
append its label to today's history list unless already present. -/
def toggleHabit (i : String) (today : String) (σ : EngineState) :
    EngineState :=
  let newHabits := σ.habits.map (flipHabit i)
  match newHabits.find? (fun h => h.id = i) with
  | some habit =>
      if habit.completed then
        let dayHistory := hhGet σ.habitHistory today
        { σ with
          habits := newHabits
          analytics := { σ.analytics with
            habitsCompleted := σ.analytics.habitsCompleted + 1 }
          habitHistory :=
            if habit.label ∉ dayHistory then
              hhSet σ.habitHistory today (dayHistory ++ [habit.label])
            else σ.habitHistory }
      else { σ with habits := newHabits }
  | none => { σ with habits := newHabits }

/-! ### Derived metrics (lines 208-226, 671-698) -/

/-- The deduplicated list of calendar days carrying at least one entry:
`Array.from(new Set(entries.map(e => new Date(e.timestamp).toDateString())))`
(line 211).  Only membership in this list is ever queried, so the
deduplication order is immaterial. -/
def entryDates (entries : List ActivityEntry) : List Int :=
  (entries.map (fun e => dayOf e.timestamp)).dedup

/-- The backward-walking `while` loop of `calculateStreak` (lines 220-223),
with fuel.  Each successful test consumes a distinct member of `dates`, so
any fuel above `dates.length` makes this equal to the unbounded loop. -/
def streakLoop (dates : List Int) : Int → Nat → Nat
  | _, 0 => 0
  | d, fuel + 1 =>
      if d ∈ dates then streakLoop dates (d - 1) fuel + 1 else 0

/-- `calculateStreak` (lines 208-226) at current time `now` (epoch ms):
0 on an empty log; 0 when neither today nor yesterday has an entry;
otherwise the length of the run of consecutive days with entries walking
backward from today (or from yesterday when today has none). -/
def calculateStreak (now : Int) (entries : List ActivityEntry) : Nat :=
  if entries = [] then 0
  else
    let dates := entryDates entries
    let today := dayOf now
    let yesterday := dayOf (now - msPerDay)
    if today ∉ dates ∧ yesterday ∉ dates then 0
    else
      streakLoop dates (if today ∈ dates then today else yesterday)
        (dates.length + 1)

/-- One step of the `activityMap` accumulation,
`map[dateStr] = (map[dateStr] || 0) + 1` (line 675): increment the day's
count, or append the day with count 1. -/
def bumpDay (m : List (Int × Nat)) (d : Int) : List (Int × Nat) :=
  match m with
  | [] => [(d, 1)]
  | (k, c) :: rest =>
      if k = d then (k, c + 1) :: rest else (k, c) :: bumpDay rest d

/-- `activityMap` (lines 671-678): the record from calendar day to the
number of entries logged that day, built by iterating over the entries. -/
def activityMap (entries : List ActivityEntry) : List (Int × Nat) :=
  entries.foldl (fun m e => bumpDay m (dayOf e.timestamp)) []

/-- `avgActionsPerDay` (lines 694-698): `Object.keys(activityMap)`; 0 when
there are no active days, else total entries divided by the number of
active days.  (The source formats this quotient with `toFixed(1)` for
display; the formatting is presentation, the computed value is this
quotient.) -/
def avgActionsPerDay (entries : List ActivityEntry) : ℚ :=
  let dates := (activityMap entries).map Prod.fst
  if dates.length = 0 then 0
  else (entries.length : ℚ) / (dates.length : ℚ)

/-- A sample entry logged on a given calendar day (timestamp at that
day's midnight). -/
def entryOnDay (day : Int) : ActivityEntry :=
  { id := toString day, text := "logged", timestamp := day * msPerDay }

/-- A log with entries on day 200 ("today") and the prior 4 consecutive
days only. -/
def fiveDayLog : List ActivityEntry :=
  [entryOnDay 200, entryOnDay 199, entryOnDay 198,
   entryOnDay 197, entryOnDay 196]

/-- A log with entries on day 200 ("today") and day 197 (3 days ago)
only — gaps at yesterday and 2 days ago. -/
def gapLog : List ActivityEntry :=
  [entryOnDay 200, entryOnDay 197]

/-- An import document whose only key is `points`. -/
def docOnlyPoints (p : Int) : ImportDoc := { points := some p }

/-- An import document whose only key is `vision`. -/
def docOnlyVision (v : String) : ImportDoc := { vision := some v }

/-- An import document whose only key is `entries`. -/
def docOnlyEntries (es : List ActivityEntry) : ImportDoc :=
  { entries := some es }

/-- A state with a populated habit history, used to exhibit what the
export document drops. -/
def stateWithHistory : EngineState :=
  { initialState with habitHistory := [("Mon Jan 01 2024", ["Read 10 pages"])] }

/-! ### Theorems -/

/-- C4.  The daily rollover is idempotent: once `checkReset` has run on a
calendar day, running it again on the same day changes neither the habits'
`completed` flags nor the persisted last-reset-day marker. -/
theorem rollover_idempotent (today : String) (s : RolloverState) :
    checkReset today (checkReset today s) = checkReset today s := by
  unfold checkReset
  split_ifs with h1 h2 <;> simp_all

/-- C7.  The 30-day heatmap bucketing agrees with the spec's four-tier
policy at every count: 0 renders the none tier, 1–2 the low tier, 3–5 the
medium tier, and 6+ the high tier — boundary counts 2 and 5 fall in the
lower-inclusive tier. -/
theorem heat_color_matches_spec_tier (count : Nat) :
    heatColor count = tierColor (specHeatTier count) := by
  unfold heatColor specHeatTier tierColor
  split_ifs <;> first | rfl | omega

/-- C2.  When the import document cannot be parsed as structured data,
`importData` signals the format error and mutates nothing: the resulting
state is exactly the pre-import state. -/
theorem import_parse_failure_is_atomic (σ : EngineState) :
    importData σ none = (σ, ImportOutcome.formatError) := rfl

/-- C3.  Importing a document containing only a non-falsy `points` key
changes exactly the points field: every other repository — entries,
habits, vision, mini-goals, if-then plans, WOOP, active theme, habit
history, future-cost notes, analytics — is left untouched. -/
theorem import_only_points_frame (σ : EngineState) (p : Int) (hp : p ≠ 0) :
    applyImport σ (docOnlyPoints p) = { σ with points := p } := by
  cases σ
  simp [applyImport, docOnlyPoints, hp]

/-- Witness for `import_only_points_frame` at a concrete state and value. -/
theorem import_only_points_frame_witness :
    applyImport initialState (docOnlyPoints 5) =
      { initialState with points := 5 } :=
  import_only_points_frame initialState 5 (by decide)

/-- C10.  `importData` skips recognized keys whose value is falsy, not only
absent keys: a document with `points = 0` leaves the whole state unchanged,
as does one with `vision = ""`; an empty `entries` array (truthy) does
replace the Activity Log with the empty list; and a zero points value does
not survive an export-import round trip onto a state with nonzero points. -/
theorem import_skips_falsy_fields :
    (∀ σ : EngineState, applyImport σ (docOnlyPoints 0) = σ) ∧
    (∀ σ : EngineState, applyImport σ (docOnlyVision "") = σ) ∧
    (∀ σ : EngineState, (applyImport σ (docOnlyEntries [])).entries = []) ∧
    (∀ (σ τ : EngineState) (ts : String), σ.points = 0 → τ.points ≠ 0 →
      (applyImport τ (exportData σ ts)).points = τ.points) := by
  refine ⟨fun σ => ?_, fun σ => ?_, fun σ => ?_, fun σ τ ts h0 hτ => ?_⟩
  · cases σ; simp [applyImport, docOnlyPoints]
  · cases σ; simp [applyImport, docOnlyVision]
  · simp [applyImport, docOnlyEntries]
  · simp [applyImport, exportData, h0]

/-- Witness for `import_skips_falsy_fields` at concrete states. -/
theorem import_skips_falsy_fields_witness :
    (applyImport { initialState with points := 9 }
        (exportData initialState "t")).points = 9 :=
  import_skips_falsy_fields.2.2.2 initialState
    { initialState with points := 9 } "t" (by decide) (by decide)

/-- C1 counterexample.  The export document omits the habit history, so the
export / clear / import round trip does not restore a populated
`habitHistory`: on `stateWithHistory` the restored history is empty. -/
theorem roundtrip_drops_habit_history :
    (applyImport initialState (exportData stateWithHistory "t")).habitHistory
      ≠ stateWithHistory.habitHistory := by
  decide

/-- C1 (amended).  The export / clear / import round trip restores the
eight exported fields — entries, habits, vision, mini-goals, if-then
plans, WOOP, points, and active theme (the latter when populated) — while
habit history, future-cost notes, and analytics, which `exportData` never
writes, revert to the cleared engine's defaults. -/
theorem export_import_roundtrip (σ : EngineState) (ts : String)
    (hθ : σ.activeTheme ≠ "") :
    applyImport initialState (exportData σ ts) =
      { σ with
        habitHistory := []
        futureCostNotes := []
        analytics := { timerSessions := 0, habitsCompleted := 0,
                       goalsCreated := 0, ifThenCreated := 0 } } := by
  cases σ with
  | mk en ha vi mg it wo po th hh fc an =>
    simp only [applyImport, exportData, initialState] at *
    simp [hθ]
    exact ⟨fun h => h.symm, fun h => h.symm⟩

/-! Lemmas about habit toggling. -/

theorem flipHabit_id (i : String) (h : Habit) :
    (flipHabit i h).id = h.id := by
  unfold flipHabit; split_ifs <;> rfl

theorem flipHabit_label (i : String) (h : Habit) :
    (flipHabit i h).label = h.label := by
  unfold flipHabit; split_ifs <;> rfl

theorem flipHabit_completed (i : String) (h : Habit) (hid : h.id = i) :
    (flipHabit i h).completed = !h.completed := by
  simp [flipHabit, hid]

theorem map_flip_ids (l : List Habit) (i : String) :
    (l.map (flipHabit i)).map Habit.id = l.map Habit.id := by
  induction l with
  | nil => rfl
  | cons x xs ih => simp [flipHabit_id, ih]

/-- `find?` on the flipped list returns the flip of the unique habit
carrying the toggled id. -/
theorem find_map_flip (l : List Habit) (i : String) (h : Habit)
    (hmem : h ∈ l) (hid : h.id = i) (hnd : (l.map Habit.id).Nodup) :
    (l.map (flipHabit i)).find? (fun x => x.id = i) =
      some (flipHabit i h) := by
  induction l with
  | nil => cases hmem
  | cons x xs ih =>
    rw [List.map_cons] at hnd
    simp only [List.map_cons, List.find?_cons]
    rcases hx : decide ((flipHabit i x).id = i) with _ | _
    · have hxid : ¬ x.id = i := by
        have := of_decide_eq_false hx
        rwa [flipHabit_id] at this
      rcases List.mem_cons.mp hmem with rfl | hmem'
      · exact absurd hid hxid
      · exact ih hmem' (List.Nodup.of_cons hnd)
    · have hxid : x.id = i := by
        have := of_decide_eq_true hx
        rwa [flipHabit_id] at this
      rcases List.mem_cons.mp hmem with rfl | hmem'
      · rfl
      · exfalso
        have hx_notin : x.id ∉ xs.map Habit.id := (List.nodup_cons.mp hnd).1
        exact hx_notin (by
          rw [hxid, ← hid]
          exact List.mem_map_of_mem Habit.id hmem')

/-- The history record after `hhSet` answers the set day with the new
list. -/
theorem hhGet_hhSet (m : List (String × List String)) (day : String)
    (v : List String) : hhGet (hhSet m day v) day = v := by
  induction m with
  | nil => simp [hhSet, hhGet]
  | cons kv rest ih =>
    obtain ⟨k, w⟩ := kv
    by_cases hk : k = day
    · simp [hhSet, hhGet, hk]
    · simp [hhSet, hhGet, hk, ih]

/-- Characterization of one `toggleHabit` step on the unique habit with
the toggled id: toggling a completed habit off only rewrites the habit
list; toggling a pending habit on also bumps the counter and appends the
label to today's history when absent. -/
theorem toggleHabit_eq (σ : EngineState) (i today : String) (h : Habit)
    (hmem : h ∈ σ.habits) (hid : h.id = i)
    (hnd : (σ.habits.map Habit.id).Nodup) :
    toggleHabit i today σ =
      if h.completed then
        { σ with habits := σ.habits.map (flipHabit i) }
      else
        { σ with
          habits := σ.habits.map (flipHabit i)
          analytics := { σ.analytics with
            habitsCompleted := σ.analytics.habitsCompleted + 1 }
          habitHistory :=
            if h.label ∉ hhGet σ.habitHistory today then
              hhSet σ.habitHistory today
                (hhGet σ.habitHistory today ++ [h.label])
            else σ.habitHistory } := by
  simp only [toggleHabit]
  rw [find_map_flip σ.habits i h hmem hid hnd]
  rcases hc : h.completed with _ | _
  · simp [flipHabit_completed i h hid, flipHabit_label, hc]
  · simp [flipHabit_completed i h hid, hc]

/-- C5.  Toggling a pending habit on, off, and on again within one day
appends its label to that day's history exactly once; and every
`toggleHabit` step preserves the no-duplicate-labels property of the
day's history list (set-like membership). -/
theorem toggle_habit_history_set_like :
    (∀ (σ : EngineState) (today : String) (h : Habit),
      h ∈ σ.habits → (σ.habits.map Habit.id).Nodup →
      h.completed = false → h.label ∉ hhGet σ.habitHistory today →
      hhGet (toggleHabit h.id today (toggleHabit h.id today
          (toggleHabit h.id today σ))).habitHistory today
        = hhGet σ.habitHistory today ++ [h.label] ∧
      (hhGet (toggleHabit h.id today (toggleHabit h.id today
          (toggleHabit h.id today σ))).habitHistory today).count h.label
        = 1) ∧
    (∀ (σ : EngineState) (i today : String),
      (hhGet σ.habitHistory today).Nodup →
      (hhGet (toggleHabit i today σ).habitHistory today).Nodup) := by
  constructor
  · intro σ today h hmem hnd hc hlab
    set i := h.id with hi
    set dh := hhGet σ.habitHistory today with hdh
    -- first toggle: on
    have e1 : toggleHabit i today σ =
        { σ with
          habits := σ.habits.map (flipHabit i)
          analytics := { σ.analytics with
            habitsCompleted := σ.analytics.habitsCompleted + 1 }
          habitHistory := hhSet σ.habitHistory today (dh ++ [h.label]) } := by
      rw [toggleHabit_eq σ i today h hmem rfl hnd]
      simp [hc, ← hdh, hlab]
    set σ₁ := toggleHabit i today σ with hσ₁
    -- second toggle: off
    have hmem1 : flipHabit i h ∈ σ₁.habits := by
      rw [e1]; exact List.mem_map_of_mem (flipHabit i) hmem
    have hnd1 : (σ₁.habits.map Habit.id).Nodup := by
      rw [e1]
      show ((σ.habits.map (flipHabit i)).map Habit.id).Nodup
      rw [map_flip_ids]; exact hnd
    have e2 : toggleHabit i today σ₁ =
        { σ₁ with habits := σ₁.habits.map (flipHabit i) } := by
      rw [toggleHabit_eq σ₁ i today (flipHabit i h) hmem1
        (flipHabit_id i h) hnd1]
      simp [flipHabit_completed i h rfl, hc]
    set σ₂ := toggleHabit i today σ₁ with hσ₂
    -- third toggle: on again, label already present
    have hmem2 : flipHabit i (flipHabit i h) ∈ σ₂.habits := by
      rw [e2]; exact List.mem_map_of_mem (flipHabit i) hmem1
    have hnd2 : (σ₂.habits.map Habit.id).Nodup := by
      rw [e2]
      show ((σ₁.habits.map (flipHabit i)).map Habit.id).Nodup
      rw [map_flip_ids]; exact hnd1
    have hid2 : (flipHabit i (flipHabit i h)).id = i := by
      rw [flipHabit_id, flipHabit_id]
    have hc2 : (flipHabit i (flipHabit i h)).completed = false := by
      rw [flipHabit_completed i _ (flipHabit_id i h),
        flipHabit_completed i h rfl, hc]
      rfl
    have hist2 : hhGet σ₂.habitHistory today = dh ++ [h.label] := by
      rw [e2]
      show hhGet σ₁.habitHistory today = dh ++ [h.label]
      rw [e1]
      exact hhGet_hhSet σ.habitHistory today (dh ++ [h.label])
    have hlab2 : (flipHabit i (flipHabit i h)).label ∈
        hhGet σ₂.habitHistory today := by
      rw [hist2, flipHabit_label, flipHabit_label]
      simp
    have e3 : hhGet (toggleHabit i today σ₂).habitHistory today
        = dh ++ [h.label] := by
      rw [toggleHabit_eq σ₂ i today (flipHabit i (flipHabit i h))
        hmem2 hid2 hnd2]
      rw [hc2, if_neg Bool.false_ne_true]
      dsimp only
      rw [if_neg (not_not_intro hlab2)]
      exact hist2
    refine ⟨e3, ?_⟩
    rw [e3]
    simp [List.count_append, List.count_eq_zero.mpr hlab]
  · intro σ i today hnd
    simp only [toggleHabit]
    rcases hfind : (σ.habits.map (flipHabit i)).find? (fun h => h.id = i)
      with _ | habit
    · simpa [hfind] using hnd
    · rw [hfind]
      rcases hc : habit.completed with _ | _
      · simpa [hc] using hnd
      · simp only [hc, if_true]
        by_cases hmem : habit.label ∈ hhGet σ.habitHistory today
        · simpa [hmem] using hnd
        · simp only [hmem, not_false_eq_true, if_true]
          show (hhGet (hhSet σ.habitHistory today
            (hhGet σ.habitHistory today ++ [habit.label])) today).Nodup
          rw [hhGet_hhSet]
          simp [List.nodup_append, hnd, hmem]

/-- Witness for `toggle_habit_history_set_like`: toggling the seeded habit
`"2"` on, off, and on during one day records its label once. -/
theorem toggle_habit_history_set_like_witness :
    hhGet (toggleHabit "2" "d" (toggleHabit "2" "d"
        (toggleHabit "2" "d" initialState))).habitHistory "d"
      = ["Read 10 pages"] :=
  (toggle_habit_history_set_like.1 initialState "d"
    { id := "2", label := "Read 10 pages", completed := false }
    (by decide) (by decide) rfl (by decide)).1

/-! Lemmas about the streak loop. -/

/-- The fueled backward walk counts exactly the run length: if the `k`
days below `d` are present and day `d - k` is not, and the fuel exceeds
`k`, the loop returns `k`. -/
theorem streakLoop_eq (dates : List Int) (k : Nat) :
    ∀ (d : Int) (fuel : Nat), k < fuel →
    (∀ j : Nat, j < k → d - (j : Int) ∈ dates) →
    d - (k : Int) ∉ dates →
    streakLoop dates d fuel = k := by
  induction k with
  | zero =>
    intro d fuel hf hall hout
    rcases fuel with _ | f
    · omega
    · simp only [streakLoop]
      rw [if_neg]
      simpa using hout
  | succ k ih =>
    intro d fuel hf hall hout
    rcases fuel with _ | f
    · omega
    · have h0 : d ∈ dates := by simpa using hall 0 (Nat.succ_pos k)
      simp only [streakLoop]
      rw [if_pos h0]
      have hrec : streakLoop dates (d - 1) f = k := by
        apply ih (d - 1) f (by omega)
        · intro j hj
          have h := hall (j + 1) (by omega)
          have heq : d - 1 - (j : Int) = d - ((j + 1 : Nat) : Int) := by
            push_cast; ring
          rw [heq]
          exact h
        · have heq : d - 1 - (k : Int) = d - ((k + 1 : Nat) : Int) := by
            push_cast; ring
          rw [heq]
          exact hout
      rw [hrec]

/-- A run of `k` consecutive present days gives `k` distinct members of
`dates`, so `k` is at most the list's length. -/
theorem run_le_length (dates : List Int) (hnd : dates.Nodup) (d : Int)
    (k : Nat) (hall : ∀ j : Nat, j < k → d - (j : Int) ∈ dates) :
    k ≤ dates.length := by
  have hsub : ((List.range k).map (fun j : Nat => d - (j : Int))) ⊆ dates := by
    intro x hx
    simp only [List.mem_map, List.mem_range] at hx
    obtain ⟨j, hj, rfl⟩ := hx
    exact hall j hj
  have hinj : Function.Injective (fun j : Nat => d - (j : Int)) := by
    intro a b hab
    simp only at hab
    omega
  have hnd2 : ((List.range k).map (fun j : Nat => d - (j : Int))).Nodup :=
    (List.nodup_range k).map hinj
  have hle := (List.subperm_of_subset hnd2 hsub).length_le
  simpa using hle

/-- C6.  `calculateStreak` implements the spec's streak algorithm: 0 on an
empty log; 0 when neither today nor yesterday has an entry; otherwise it
counts the consecutive run of days with entries walking backward from
today (from yesterday when today is absent); in particular entries on
today and the prior 4 days only give 5, and entries on today and 3 days
ago only give 1. -/
theorem calculate_streak_spec :
    (∀ now : Int, calculateStreak now [] = 0) ∧
    (∀ (now : Int) (entries : List ActivityEntry),
      dayOf now ∉ entryDates entries →
      dayOf (now - msPerDay) ∉ entryDates entries →
      calculateStreak now entries = 0) ∧
    (∀ (now : Int) (entries : List ActivityEntry) (k : Nat),
      (dayOf now ∈ entryDates entries ∨
        dayOf (now - msPerDay) ∈ entryDates entries) →
      (∀ j : Nat, j < k →
        (if dayOf now ∈ entryDates entries then dayOf now
          else dayOf (now - msPerDay)) - (j : Int) ∈ entryDates entries) →
      (if dayOf now ∈ entryDates entries then dayOf now
        else dayOf (now - msPerDay)) - (k : Int) ∉ entryDates entries →
      calculateStreak now entries = k) ∧
    calculateStreak (200 * msPerDay) fiveDayLog = 5 ∧
    calculateStreak (200 * msPerDay) gapLog = 1 := by
  refine ⟨fun now => rfl, ?_, ?_, by decide, by decide⟩
  · intro now entries h1 h2
    simp only [calculateStreak]
    split_ifs with he hg
    · rfl
    · rfl
    · exact absurd ⟨h1, h2⟩ hg
  · intro now entries k hor hall hout
    have hne : entries ≠ [] := by
      rcases hor with h | h <;>
        · intro h0
          subst h0
          simp [entryDates] at h
    simp only [calculateStreak]
    rw [if_neg hne]
    have hguard : ¬ (dayOf now ∉ entryDates entries ∧
        dayOf (now - msPerDay) ∉ entryDates entries) := by tauto
    rw [if_neg hguard]
    apply streakLoop_eq (entryDates entries) k _ _ _ hall hout
    have hle := run_le_length (entryDates entries)
      (List.nodup_dedup _) _ k hall
    omega

/-- Witness for `calculate_streak_spec`: its counting clause applied to
the gap log yields streak 1. -/
theorem calculate_streak_spec_witness :
    calculateStreak (200 * msPerDay) gapLog = 1 :=
  calculate_streak_spec.2.2.1 (200 * msPerDay) gapLog 1
    (by decide) (by decide) (by decide)

/-! Lemmas about the Activity Log. -/

/-- On a log with unique ids, `deleteEntry`'s filter removes exactly one
entry when the id is present and none otherwise. -/
theorem filter_ne_length (l : List ActivityEntry) (i : String)
    (hnd : (l.map ActivityEntry.id).Nodup) :
    (l.filter (fun e => e.id ≠ i)).length
      + (if l.any (fun e => e.id = i) then 1 else 0) = l.length := by
  induction l with
  | nil => simp
  | cons e l ih =>
    rw [List.map_cons] at hnd
    have hnd' := List.Nodup.of_cons hnd
    have hrec := ih hnd'
    by_cases he : e.id = i
    · have hnotin : e.id ∉ l.map ActivityEntry.id :=
        (List.nodup_cons.mp hnd).1
      have hall : ∀ a ∈ l, ¬ a.id = i := fun a ha hai =>
        hnotin (by
          rw [he, ← hai]
          exact List.mem_map_of_mem ActivityEntry.id ha)
      have hfl : l.filter (fun e => e.id ≠ i) = l :=
        List.filter_eq_self.mpr (fun a ha => by simpa using hall a ha)
      simp [List.filter_cons, List.any_cons, he, hfl]
      exact hall
    · have hfc : (e :: l).filter (fun x => x.id ≠ i)
          = e :: l.filter (fun x => x.id ≠ i) := by
        simp [List.filter_cons, he]
      have hac : (e :: l).any (fun x => x.id = i)
          = l.any (fun x => x.id = i) := by
        simp [List.any_cons, he]
      rw [hfc, hac, List.length_cons, List.length_cons]
      omega

/-- `countAdds` unfolds one operation at a time. -/
theorem countAdds_cons (op : LogOp) (ops : List LogOp) :
    countAdds (op :: ops)
      = (if isGoodAdd op then 1 else 0) + countAdds ops := by
  rcases h : isGoodAdd op with _ | _ <;>
    simp [countAdds, List.filter_cons, h, Nat.add_comm]

/-- Bookkeeping along any operation sequence: final length plus removals
of present ids equals initial length plus successful appends (hypothesis:
no id collisions among the initial log and the appends' minted ids). -/
theorem runOps_length_countHits (ops : List LogOp) :
    ∀ l : List ActivityEntry,
    ((l.map ActivityEntry.id) ++ addIds ops).Nodup →
    (runOps l ops).length + countHits l ops = l.length + countAdds ops := by
  induction ops with
  | nil => intro l hnd; simp [runOps, countHits, countAdds]
  | cons op ops ih =>
    intro l hnd
    have hstep : runOps l (op :: ops) = runOps (applyOp l op) ops := rfl
    rw [hstep, countAdds_cons]
    rcases op with ⟨now, text⟩ | i
    · rw [addIds] at hnd
      have hch : countHits l (LogOp.add now text :: ops)
          = countHits (applyOp l (LogOp.add now text)) ops := by
        simp [countHits, isHit]
      rw [hch]
      by_cases ht : text.trim = ""
      · have happ : applyOp l (LogOp.add now text) = l := by
          simp [applyOp, ht]
        have hga : isGoodAdd (LogOp.add now text) = false := by
          simp [isGoodAdd, ht]
        have hnd' : ((l.map ActivityEntry.id) ++ addIds ops).Nodup :=
          ((List.sublist_cons_of_sublist (toString now)
            (List.Sublist.refl (addIds ops))).append_left
              (l.map ActivityEntry.id)).nodup hnd
        rw [happ, hga]
        simpa using ih l hnd'
      · have happ : applyOp l (LogOp.add now text)
            = mkEntry now text :: l := by
          simp [applyOp, ht]
        have hga : isGoodAdd (LogOp.add now text) = true := by
          simp [isGoodAdd, ht]
        have hnd' : (((mkEntry now text :: l).map ActivityEntry.id)
            ++ addIds ops).Nodup := by
          rw [List.map_cons, List.cons_append]
          exact List.Perm.nodup List.perm_middle hnd
        have hrec := ih (mkEntry now text :: l) hnd'
        rw [List.length_cons] at hrec
        rw [happ, hga]
        simp only [if_true]
        omega
    · rw [addIds] at hnd
      have hndl : (l.map ActivityEntry.id).Nodup :=
        List.Nodup.of_append_left hnd
      have happ : applyOp l (LogOp.del i) = l.filter (fun e => e.id ≠ i) :=
        rfl
      have hch : countHits l (LogOp.del i :: ops)
          = (if l.any (fun e => e.id = i) then 1 else 0)
            + countHits (applyOp l (LogOp.del i)) ops := by
        simp [countHits, isHit]
      have hga : isGoodAdd (LogOp.del i) = false := rfl
      have hnd' : (((l.filter (fun e => e.id ≠ i)).map ActivityEntry.id)
          ++ addIds ops).Nodup :=
        (((List.filter_sublist l).map ActivityEntry.id).append_right
          (addIds ops)).nodup hnd
      have h1 := ih (l.filter (fun e => e.id ≠ i)) hnd'
      have h2 := filter_ne_length l i hndl
      rw [hch, hga, happ]
      rcases ha : l.any (fun e => e.id = i) with _ | _
      · rw [ha, if_neg Bool.false_ne_true] at h2
        rw [if_neg Bool.false_ne_true]
        omega
      · rw [ha, if_pos rfl] at h2
        rw [if_pos rfl, if_neg Bool.false_ne_true]
        omega

/-! Lemmas about the activity map. -/

/-- `bumpDay` keeps the key list when the day is present and appends the
day otherwise. -/
theorem bumpDay_fst (m : List (Int × Nat)) (d : Int) :
    (bumpDay m d).map Prod.fst =
      if d ∈ m.map Prod.fst then m.map Prod.fst
      else m.map Prod.fst ++ [d] := by
  induction m with
  | nil => simp [bumpDay]
  | cons kv rest ih =>
    obtain ⟨k, c⟩ := kv
    by_cases hk : k = d
    · simp [bumpDay, hk]
    · have hne : ¬ d = k := fun h => hk h.symm
      by_cases hd : d ∈ rest.map Prod.fst <;>
        simp [bumpDay, hk, hd, hne, ih]

/-- Accumulator invariant of the `activityMap` fold: keys stay duplicate
free, and the final key set is the initial keys plus the entries' days. -/
theorem activity_fold_keys (es : List ActivityEntry) :
    ∀ m : List (Int × Nat), (m.map Prod.fst).Nodup →
    ((es.foldl (fun m e => bumpDay m (dayOf e.timestamp)) m).map
        Prod.fst).Nodup ∧
    (∀ x : Int,
      x ∈ (es.foldl (fun m e => bumpDay m (dayOf e.timestamp)) m).map
          Prod.fst ↔
      x ∈ m.map Prod.fst ∨
        x ∈ es.map (fun e => dayOf e.timestamp)) := by
  induction es with
  | nil => intro m hm; simpa using hm
  | cons e es ih =>
    intro m hm
    have hbnd : ((bumpDay m (dayOf e.timestamp)).map Prod.fst).Nodup := by
      rw [bumpDay_fst]
      by_cases hd : dayOf e.timestamp ∈ m.map Prod.fst
      · simpa [hd] using hm
      · simp [hd, List.nodup_append, hm]
    have hbmem : ∀ x : Int,
        x ∈ (bumpDay m (dayOf e.timestamp)).map Prod.fst ↔
        x ∈ m.map Prod.fst ∨ x = dayOf e.timestamp := by
      intro x
      rw [bumpDay_fst]
      by_cases hd : dayOf e.timestamp ∈ m.map Prod.fst
      · simp only [hd, if_true]
        constructor
        · exact fun h => Or.inl h
        · rintro (h | rfl)
          · exact h
          · exact hd
      · simp [hd]
    obtain ⟨h1, h2⟩ := ih (bumpDay m (dayOf e.timestamp)) hbnd
    refine ⟨h1, fun x => ?_⟩
    rw [List.foldl_cons] at *
    rw [h2 x, hbmem x, List.map_cons, List.mem_cons]
    tauto

/-- Membership in the activity map's keys is having an entry that day. -/
theorem activityMap_keys_mem (es : List ActivityEntry) (x : Int) :
    x ∈ (activityMap es).map Prod.fst ↔
      x ∈ es.map (fun e => dayOf e.timestamp) := by
  have h := (activity_fold_keys es [] (by simp)).2 x
  simpa [activityMap] using h

/-- The activity map's keys carry no duplicates. -/
theorem activityMap_keys_nodup (es : List ActivityEntry) :
    ((activityMap es).map Prod.fst).Nodup :=
  (activity_fold_keys es [] (by simp)).1

/-- The activity map's key count is the number of distinct active days. -/
theorem activityMap_length (es : List ActivityEntry) :
    (activityMap es).length
      = ((es.map (fun e => dayOf e.timestamp)).dedup).length := by
  have hperm : List.Perm ((activityMap es).map Prod.fst)
      ((es.map (fun e => dayOf e.timestamp)).dedup) := by
    refine (List.perm_ext_iff_of_nodup (activityMap_keys_nodup es)
      (List.nodup_dedup _)).mpr ?_
    intro a
    rw [List.mem_dedup]
    exact activityMap_keys_mem es a
  have := hperm.length_eq
  rwa [List.length_map] at this

/-- C8.  `avgActionsPerDay` is total: on an empty log it is 0 (the
division is guarded, not performed), and on any nonempty log the guard's
denominator is provably nonzero and the result is the total entry count
divided by the number of distinct active days. -/
theorem avg_actions_per_day_total :
    avgActionsPerDay [] = 0 ∧
    (∀ (e : ActivityEntry) (es : List ActivityEntry),
      (activityMap (e :: es)).length ≠ 0 ∧
      avgActionsPerDay (e :: es)
        = ((e :: es).length : ℚ) / ((activityMap (e :: es)).length : ℚ) ∧
      (activityMap (e :: es)).length
        = (((e :: es).map (fun x => dayOf x.timestamp)).dedup).length) := by
  constructor
  · rfl
  · intro e es
    have hmem : dayOf e.timestamp ∈ (activityMap (e :: es)).map Prod.fst := by
      rw [activityMap_keys_mem]
      simp
    have hne : (activityMap (e :: es)).length ≠ 0 := by
      intro h0
      rw [← List.length_map (activityMap (e :: es)) Prod.fst] at h0
      exact absurd (List.length_eq_zero.mp h0 ▸ hmem) (List.not_mem_nil _)
    refine ⟨hne, ?_, activityMap_length (e :: es)⟩
    simp only [avgActionsPerDay]
    rw [List.length_map]
    rw [if_neg hne]

/-- C9.  Activity Log behaviour under arbitrary append/remove sequences:
an append whose text trims to empty leaves the log unchanged; a
successful append prepends its entry (most-recent-first order); and over
any operation sequence without id collisions, the final length plus the
removals of present ids equals the initial length plus the successful
appends. -/
theorem activity_log_ops :
    (∀ (l : List ActivityEntry) (now : Int) (text : String),
      text.trim = "" → applyOp l (LogOp.add now text) = l) ∧
    (∀ (l : List ActivityEntry) (now : Int) (text : String),
      text.trim ≠ "" →
      applyOp l (LogOp.add now text) = mkEntry now text :: l) ∧
    (∀ (ops : List LogOp) (l : List ActivityEntry),
      ((l.map ActivityEntry.id) ++ addIds ops).Nodup →
      (runOps l ops).length + countHits l ops
        = l.length + countAdds ops) := by
  refine ⟨fun l now text ht => ?_, fun l now text ht => ?_,
    runOps_length_countHits⟩
  · simp [applyOp, ht]
  · simp [applyOp, ht]

/-- Witness for `activity_log_ops`: two appends (one of which trims to
empty) followed by a removal of the present id leave a log of length 0. -/
theorem activity_log_ops_witness :
    (runOps [] [LogOp.add 5 "hi", LogOp.add 6 "  ", LogOp.del "5"]).length
        + countHits [] [LogOp.add 5 "hi", LogOp.add 6 "  ", LogOp.del "5"]
      = ([] : List ActivityEntry).length
        + countAdds [LogOp.add 5 "hi", LogOp.add 6 "  ", LogOp.del "5"] :=
  activity_log_ops.2.2 [LogOp.add 5 "hi", LogOp.add 6 "  ", LogOp.del "5"]
    [] (by decide)

/-- Witness for `export_import_roundtrip` at a concrete populated state. -/
theorem export_import_roundtrip_witness :
    applyImport initialState (exportData stateWithHistory "t") =
      { stateWithHistory with
        habitHistory := []
        futureCostNotes := []
        analytics := { timerSessions := 0, habitsCompleted := 0,
                       goalsCreated := 0, ifThenCreated := 0 } } :=
  export_import_roundtrip stateWithHistory "t" (by decide)
